import Mathlib

/-!
Shallow embedding of the incremental package-install data loader
(PackageManagerShellCommandDataLoader JNI core): wire codec, input source
multiplexer, block assembler, prepare-image driver and streaming receiver.

Modelling conventions:
* machine integers are `Nat`/`Int`; reinterpretation casts (`int8_t`,
  `int16_t`, `int32_t`) are explicit two's-complement conversions;
* C++ integer division (truncation toward zero) is `Int.tdiv`;
* byte buffers are `List Nat` (each element one byte value);
* file descriptors and the external collaborators (JNI resolver, IncFS
  writer, `read(2)`) are replaced by explicit oracles: a list of read
  results, per-file environment records, a poll/chunk event list;
* every function is a computable `def` so that concrete runs evaluate.
-/

namespace PMSC

/-- IncFS data-file block size, from the incremental-filesystem collaborator's
header (`INCFS_DATA_FILE_BLOCK_SIZE`); a compile-time constant, 4 KiB. -/
def INCFS_DATA_FILE_BLOCK_SIZE : Nat := 4096

/-- Assembler buffer capacity (`BUFFER_SIZE = 256 * 1024`). -/
def BUFFER_SIZE : Nat := 256 * 1024

/-- `BLOCKS_COUNT = BUFFER_SIZE / INCFS_DATA_FILE_BLOCK_SIZE`. -/
def BLOCKS_COUNT : Nat := BUFFER_SIZE / INCFS_DATA_FILE_BLOCK_SIZE

/-! ## Verity tree sizing (`verityTreeSizeForFile`) -/

/-- `SHA256_DIGEST_SIZE` constant of `verityTreeSizeForFile`. -/
def SHA256_DIGEST_SIZE : Nat := 32

/-- `hash_per_block = INCFS_DATA_FILE_BLOCK_SIZE / digest_size` (= 128). -/
def hash_per_block : Nat := INCFS_DATA_FILE_BLOCK_SIZE / SHA256_DIGEST_SIZE

/-- The `for (auto i = 0; hash_block_count > 1; i++)` loop of
`verityTreeSizeForFile`: replaces `hash_block_count` by
`(hash_block_count + hash_per_block - 1) / hash_per_block` (C++ `/` on the
signed `IncFsSize`, i.e. truncation toward zero) and accumulates the new
value into `total_tree_block_count`; returns the accumulated total. -/
def verityHashLoop (hash_block_count : Int) : Int :=
  if 1 < hash_block_count then
    (hash_block_count + (hash_per_block : Int) - 1).tdiv (hash_per_block : Int) +
      verityHashLoop ((hash_block_count + (hash_per_block : Int) - 1).tdiv (hash_per_block : Int))
  else 0
termination_by hash_block_count.toNat
decreasing_by
  norm_num [hash_per_block, SHA256_DIGEST_SIZE, INCFS_DATA_FILE_BLOCK_SIZE]
  rw [Int.tdiv_eq_ediv (by omega) (by omega)]
  omega

/-- `verityTreeSizeForFile(fileSize)`: `block_count = 1 + (fileSize - 1) /
INCFS_DATA_FILE_BLOCK_SIZE` (C++ truncated division on the signed
`IncFsSize`), then the hash-block loop, result scaled by the block size. -/
def verityTreeSizeForFile (fileSize : Int) : Int :=
  verityHashLoop (1 + (fileSize - 1).tdiv (INCFS_DATA_FILE_BLOCK_SIZE : Int)) *
    (INCFS_DATA_FILE_BLOCK_SIZE : Int)

/-- Spec-side fixed point loop, from the spec's words: "while `B>1`, set
`B = ceil(B/(block_size/32))` and accumulate". -/
def verity_tree_size_spec_loop (B : Nat) : Nat :=
  if 1 < B then
    (B + (INCFS_DATA_FILE_BLOCK_SIZE / 32) - 1) / (INCFS_DATA_FILE_BLOCK_SIZE / 32) +
      verity_tree_size_spec_loop
        ((B + (INCFS_DATA_FILE_BLOCK_SIZE / 32) - 1) / (INCFS_DATA_FILE_BLOCK_SIZE / 32))
  else 0
termination_by B
decreasing_by norm_num [INCFS_DATA_FILE_BLOCK_SIZE]; omega

/-- Spec-side verity tree size, from the spec's words: "let
`B = ceil(S/block_size)`; while `B>1` ... ; result is (sum) x block_size". -/
def verity_tree_size_spec (S : Nat) : Nat :=
  verity_tree_size_spec_loop ((S + INCFS_DATA_FILE_BLOCK_SIZE - 1) / INCFS_DATA_FILE_BLOCK_SIZE) *
    INCFS_DATA_FILE_BLOCK_SIZE

theorem verityHashLoop_eq_spec_loop (n : Nat) :
    verityHashLoop (n : Int) = (verity_tree_size_spec_loop n : Int) := by
  induction n using Nat.strong_induction_on with
  | _ n ih =>
    by_cases h : 1 < n
    · have hgt : (1 : Int) < (n : Int) := by exact_mod_cast h
      rw [verityHashLoop, if_pos hgt, verity_tree_size_spec_loop, if_pos h]
      have hhpb : hash_per_block = INCFS_DATA_FILE_BLOCK_SIZE / 32 := by
        simp [hash_per_block, SHA256_DIGEST_SIZE]
      have hX : ((n : Int) + (hash_per_block : Int) - 1).tdiv (hash_per_block : Int) =
          (((n + INCFS_DATA_FILE_BLOCK_SIZE / 32 - 1) / (INCFS_DATA_FILE_BLOCK_SIZE / 32) :
            Nat) : Int) := by
        rw [hhpb]
        have h1 : (n : Int) + ((INCFS_DATA_FILE_BLOCK_SIZE / 32 : Nat) : Int) - 1 =
            ((n + INCFS_DATA_FILE_BLOCK_SIZE / 32 - 1 : Nat) : Int) := by
          have : 1 ≤ n := by omega
          push_cast [this]
          omega
        rw [h1]
        exact (Int.ofNat_tdiv _ _).symm
      rw [hX]
      have hdec : (n + INCFS_DATA_FILE_BLOCK_SIZE / 32 - 1) / (INCFS_DATA_FILE_BLOCK_SIZE / 32)
          < n := by
        norm_num [INCFS_DATA_FILE_BLOCK_SIZE]
        omega
      rw [ih _ hdec]
      push_cast
      ring
    · have hgt : ¬ (1 : Int) < (n : Int) := by exact_mod_cast h
      rw [verityHashLoop, if_neg hgt, verity_tree_size_spec_loop, if_neg h]
      simp

/-- C3: for every non-negative file size `S`, `verityTreeSizeForFile S` equals
the spec's fixed-point sum with `B_0 = ceil(S/block_size)`,
`B_{i+1} = ceil(B_i/(block_size/32))` accumulated while `B_i > 1`, scaled by
the block size (digest size fixed at 32 bytes). -/
theorem verityTreeSizeForFile_eq_spec (S : Int) (hS : 0 ≤ S) :
    verityTreeSizeForFile S = (verity_tree_size_spec S.toNat : Int) := by
  rw [verityTreeSizeForFile, verity_tree_size_spec]
  rcases eq_or_lt_of_le hS with hz | hpos
  · -- S = 0: block_count is 1 in the code but B_0 = 0 in the spec; both sides
    -- run a loop that immediately stops, so both sides are 0.
    rw [← hz]
    have h1 : ((0 : Int) - 1).tdiv (INCFS_DATA_FILE_BLOCK_SIZE : Int) = 0 := by
      simp only [INCFS_DATA_FILE_BLOCK_SIZE]
      decide
    rw [h1]
    have h2 : verityHashLoop (1 + 0) = 0 := by rw [verityHashLoop]; norm_num
    have h3 : verity_tree_size_spec_loop (((0 : Int).toNat + INCFS_DATA_FILE_BLOCK_SIZE - 1) /
        INCFS_DATA_FILE_BLOCK_SIZE) = 0 := by
      have : ((0 : Int).toNat + INCFS_DATA_FILE_BLOCK_SIZE - 1) / INCFS_DATA_FILE_BLOCK_SIZE
          = 0 := by norm_num [INCFS_DATA_FILE_BLOCK_SIZE]
      rw [this, verity_tree_size_spec_loop]
      norm_num
    rw [h2, h3]
    simp
  · -- S >= 1: block_count agrees with ceil(S/block_size).
    have h1 : S - 1 = ((S.toNat - 1 : Nat) : Int) := by omega
    have h2 : (S - 1).tdiv (INCFS_DATA_FILE_BLOCK_SIZE : Int) =
        (((S.toNat - 1) / INCFS_DATA_FILE_BLOCK_SIZE : Nat) : Int) := by
      rw [h1]
      exact (Int.ofNat_tdiv _ _).symm
    rw [h2]
    have h3 : (1 : Int) + (((S.toNat - 1) / INCFS_DATA_FILE_BLOCK_SIZE : Nat) : Int) =
        (((S.toNat + INCFS_DATA_FILE_BLOCK_SIZE - 1) / INCFS_DATA_FILE_BLOCK_SIZE : Nat) : Int) := by
      have hn : 1 + (S.toNat - 1) / INCFS_DATA_FILE_BLOCK_SIZE =
          (S.toNat + INCFS_DATA_FILE_BLOCK_SIZE - 1) / INCFS_DATA_FILE_BLOCK_SIZE := by
        have h4 : 1 ≤ S.toNat := by omega
        norm_num [INCFS_DATA_FILE_BLOCK_SIZE]
        omega
      push_cast [← hn]
      ring
    rw [h3, verityHashLoop_eq_spec_loop]
    push_cast
    ring

/-- Witness for C3 at `S = 8192`: two data blocks need one hash block, so the
tree size is one block. -/
theorem verityTreeSizeForFile_eq_spec_witness :
    (0 : Int) ≤ 8192 ∧ verityTreeSizeForFile 8192 = (verity_tree_size_spec (8192 : Int).toNat : Int) :=
  ⟨by norm_num, verityTreeSizeForFile_eq_spec 8192 (by norm_num)⟩

/-! ## Integer reinterpretation casts -/

/-- Reinterpret a byte value as a signed `int8_t`. -/
def toInt8 (b : Nat) : Int :=
  if b % 256 < 128 then (b % 256 : Int) else (b % 256 : Int) - 256

/-- Reinterpret a 16-bit value as a signed `int16_t`. -/
def toInt16 (v : Nat) : Int :=
  if v % 65536 < 32768 then (v % 65536 : Int) else (v % 65536 : Int) - 65536

/-- Reinterpret a 32-bit value as a signed `int32_t`. -/
def toInt32 (v : Nat) : Int :=
  if v % 4294967296 < 2147483648 then (v % 4294967296 : Int)
  else (v % 4294967296 : Int) - 4294967296

/-! ## FileId codec (`convertFileIndexToFileId` / `convertFileIdToFileIndex`)

A `FileId` is an opaque 16-byte identifier, modelled as a `List Nat` of
byte values.  The loader overloads byte 0 as the `MetadataMode` tag and
writes the decimal text of the `FileIdx` into bytes 1..15.
-/

/-- Decimal digits of `n`, most significant first (the digit order
`std::to_chars` emits); `0` renders as `[0]`. -/
def toDecDigits (n : Nat) : List Nat :=
  if n < 10 then [n] else toDecDigits (n / 10) ++ [n % 10]
termination_by n
decreasing_by omega

/-- Bytes that `std::to_chars` produces for an `int` value: an optional minus
sign (byte 45) followed by the decimal digits as ASCII bytes. -/
def toCharsBytes (x : Int) : List Nat :=
  (if x < 0 then [45] else []) ++ (toDecDigits x.natAbs).map (fun d => d + 48)

/-- `convertFileIndexToFileId(mode, fileIdx)`: zero-initialize a 16-byte
`IncFsFileId`, store the mode in byte 0 and `std::to_chars` the index into
bytes 1..15; if the text does not fit, `to_chars` reports an error and the
function returns the zero-initialized id (`return {}`). -/
def convertFileIndexToFileId (mode : Nat) (fileIdx : Int) : List Nat :=
  if (toCharsBytes fileIdx).length ≤ 15 then
    mode :: (toCharsBytes fileIdx ++ List.replicate (15 - (toCharsBytes fileIdx).length) 0)
  else List.replicate 16 0

/-- The digit scan of `std::from_chars`: consume leading ASCII digits,
returning the accumulated value and how many bytes were consumed. -/
def fromCharsDigits : List Nat → Nat → Nat × Nat
  | [], acc => (acc, 0)
  | c :: rest, acc =>
    if 48 ≤ c ∧ c ≤ 57 then
      ((fromCharsDigits rest (acc * 10 + (c - 48))).1,
        (fromCharsDigits rest (acc * 10 + (c - 48))).2 + 1)
    else (acc, 0)

/-- `std::from_chars` over a byte window for a C `int`: an optional minus
sign, then at least one digit; a parsed value outside the 32-bit `int` range
reports `result_out_of_range`.  Returns the parsed value and an `ok` flag;
`false` models a nonzero error code (in which case the out-parameter value
is never read by the caller). -/
def fromCharsInt (cs : List Nat) : Int × Bool :=
  match cs with
  | [] => (0, false)
  | c :: rest =>
    if c = 45 then
      if (fromCharsDigits rest 0).2 = 0 then (0, false)
      else if ((fromCharsDigits rest 0).1 : Int) > 2147483648 then (0, false)
      else (-((fromCharsDigits rest 0).1 : Int), true)
    else
      if (fromCharsDigits (c :: rest) 0).2 = 0 then (0, false)
      else if ((fromCharsDigits (c :: rest) 0).1 : Int) > 2147483647 then (0, false)
      else (((fromCharsDigits (c :: rest) 0).1 : Int), true)

/-- `convertFileIdToFileIndex(fileId)`: byte 0 must be the
`DATA_ONLY_STREAMING` (2) or `STREAMING` (3) tag, bytes 1..15 must
`std::from_chars`-parse to an `int` (`res.ec == errc{}`) within the `FileIdx`
(`int16_t`) range; otherwise `-1`. -/
def convertFileIdToFileIndex (fileId : List Nat) : Int :=
  if toInt8 (fileId.headD 0) ≠ 2 ∧ toInt8 (fileId.headD 0) ≠ 3 then -1
  else
    if (fromCharsInt (fileId.tail.take 15)).2 = false ∨
        (fromCharsInt (fileId.tail.take 15)).1 < -32768 ∨
        32767 < (fromCharsInt (fileId.tail.take 15)).1 then -1
    else (fromCharsInt (fileId.tail.take 15)).1

theorem toDecDigits_length_le (k : Nat) : ∀ n : Nat, n < 10 ^ (k + 1) →
    (toDecDigits n).length ≤ k + 1 := by
  induction k with
  | zero =>
    intro n h
    norm_num at h
    rw [toDecDigits, if_pos h]
    simp
  | succ k ih =>
    intro n h
    by_cases h10 : n < 10
    · rw [toDecDigits, if_pos h10]
      simp only [List.length_cons, List.length_nil]
      omega
    · rw [toDecDigits, if_neg h10]
      have hdiv : n / 10 < 10 ^ (k + 1) := by
        apply Nat.div_lt_of_lt_mul
        rw [← pow_succ']
        exact h
      have hlen := ih (n / 10) hdiv
      simp only [List.length_append, List.length_cons, List.length_nil]
      omega

theorem toDecDigits_length_pos (n : Nat) : 1 ≤ (toDecDigits n).length := by
  rw [toDecDigits]
  by_cases h : n < 10
  · rw [if_pos h]; simp
  · rw [if_neg h]; simp

theorem toDecDigits_lt_ten (n : Nat) : ∀ d ∈ toDecDigits n, d < 10 := by
  induction n using toDecDigits.induct with
  | case1 n h =>
    rw [toDecDigits, if_pos h]
    intro d hd
    simp at hd
    omega
  | case2 n h ih =>
    rw [toDecDigits, if_neg h]
    intro d hd
    rcases List.mem_append.mp hd with h1 | h2
    · exact ih d h1
    · simp at h2
      omega

theorem fromCharsDigits_digits (n : Nat) : ∀ (acc : Nat) (rest : List Nat),
    fromCharsDigits ((toDecDigits n).map (fun d => d + 48) ++ rest) acc =
      ((fromCharsDigits rest (acc * 10 ^ (toDecDigits n).length + n)).1,
        (fromCharsDigits rest (acc * 10 ^ (toDecDigits n).length + n)).2 +
          (toDecDigits n).length) := by
  induction n using toDecDigits.induct with
  | case1 n h =>
    intro acc rest
    rw [toDecDigits, if_pos h]
    simp only [List.map_cons, List.map_nil, List.cons_append, List.nil_append]
    rw [fromCharsDigits]
    rw [if_pos (show 48 ≤ n + 48 ∧ n + 48 ≤ 57 by omega)]
    have h1 : n + 48 - 48 = n := by omega
    have h2 : ([n] : List Nat).length = 1 := rfl
    rw [h1, h2, pow_one]
  | case2 n h ih =>
    intro acc rest
    rw [toDecDigits, if_neg h]
    rw [List.map_append, List.append_assoc]
    rw [ih]
    simp only [List.map_cons, List.map_nil, List.cons_append, List.nil_append]
    rw [fromCharsDigits]
    rw [if_pos (show 48 ≤ n % 10 + 48 ∧ n % 10 + 48 ≤ 57 by omega)]
    have harg : ∀ Q : Nat, (Q + n / 10) * 10 + (n % 10 + 48 - 48) = Q * 10 + n := by
      intro Q
      omega
    rw [harg (acc * 10 ^ (toDecDigits (n / 10)).length)]
    have hlen : (toDecDigits (n / 10) ++ [n % 10]).length = (toDecDigits (n / 10)).length + 1 := by
      simp
    rw [hlen, pow_succ, ← Nat.mul_assoc]
    have hfin : ∀ (a : Nat) (b : Nat), ((a, b + 1 + (toDecDigits (n / 10)).length) : Nat × Nat)
        = (a, b + ((toDecDigits (n / 10)).length + 1)) := by
      intro a b
      congr 1
      omega
    exact hfin _ _

theorem fromCharsDigits_replicate_zero (m : Nat) (acc : Nat) :
    fromCharsDigits (List.replicate m 0) acc = (acc, 0) := by
  cases m with
  | zero => rfl
  | succ m => simp [List.replicate, fromCharsDigits]

/-- Parsing the rendered text of `x` followed by the zero padding of the
`FileId` recovers `x`, for any 16-bit `x`. -/
theorem fromCharsInt_toCharsBytes (x : Int) (m : Nat)
    (hlo : -32768 ≤ x) (hhi : x ≤ 32767) :
    fromCharsInt (toCharsBytes x ++ List.replicate m 0) = (x, true) := by
  have hlen1 := toDecDigits_length_pos x.natAbs
  by_cases hneg : x < 0
  · rw [toCharsBytes, if_pos hneg]
    simp only [List.cons_append, List.nil_append]
    rw [fromCharsInt]
    rw [if_pos rfl]
    rw [fromCharsDigits_digits, fromCharsDigits_replicate_zero]
    simp only [Nat.zero_mul, Nat.zero_add, Nat.add_zero]
    rw [if_neg (by omega)]
    rw [if_neg (show ¬((x.natAbs : Int) > 2147483648) by omega)]
    congr 1
    omega
  · obtain ⟨d0, rest0, hdr⟩ := List.exists_cons_of_ne_nil
      (show toDecDigits x.natAbs ≠ [] by
        intro hcon
        have := toDecDigits_length_pos x.natAbs
        rw [hcon] at this
        simp at this)
    have hshape : toCharsBytes x ++ List.replicate m 0 =
        (d0 + 48) :: (List.map (fun d => d + 48) rest0 ++ List.replicate m 0) := by
      rw [toCharsBytes, if_neg hneg, hdr]
      simp
    have hback : (d0 + 48) :: (List.map (fun d => d + 48) rest0 ++ List.replicate m 0) =
        List.map (fun d => d + 48) (toDecDigits x.natAbs) ++ List.replicate m 0 := by
      rw [hdr]
      simp
    rw [hshape]
    simp only [fromCharsInt]
    rw [if_neg (show ¬(d0 + 48 = 45) by omega)]
    rw [hback, fromCharsDigits_digits, fromCharsDigits_replicate_zero]
    simp only [Nat.zero_mul, Nat.zero_add, Nat.add_zero]
    rw [if_neg (by omega)]
    rw [if_neg (show ¬((x.natAbs : Int) > 2147483647) by omega)]
    congr 1
    omega

theorem toCharsBytes_length_le (x : Int) (hlo : -32768 ≤ x) (hhi : x ≤ 32767) :
    (toCharsBytes x).length ≤ 6 := by
  have habs : x.natAbs < 10 ^ 5 := by
    have : x.natAbs ≤ 32768 := by omega
    norm_num
    omega
  have hlen := toDecDigits_length_le 4 x.natAbs habs
  rw [toCharsBytes]
  by_cases hneg : x < 0
  · rw [if_pos hneg]; simp; omega
  · rw [if_neg hneg]; simp; omega

/-- C4: for `mode` either `DATA_ONLY_STREAMING` (2) or `STREAMING` (3) and any
`fileIdx` in the `int16_t` range, decoding the encoded `FileId` with
`convertFileIdToFileIndex` yields `fileIdx` back: the round trip through the
mode tag byte and the decimal text in bytes 1..15 is the identity. -/
theorem convertFileId_roundtrip (mode : Nat) (x : Int)
    (hmode : mode = 2 ∨ mode = 3) (hlo : -32768 ≤ x) (hhi : x ≤ 32767) :
    convertFileIdToFileIndex (convertFileIndexToFileId mode x) = x := by
  have hfit : (toCharsBytes x).length ≤ 15 :=
    le_trans (toCharsBytes_length_le x hlo hhi) (by norm_num)
  rw [convertFileIndexToFileId, if_pos hfit]
  rw [convertFileIdToFileIndex]
  simp only [List.headD_cons, List.tail_cons]
  have hmode8 : ¬(toInt8 mode ≠ 2 ∧ toInt8 mode ≠ 3) := by
    rcases hmode with h | h <;> subst h <;> decide
  rw [if_neg hmode8]
  have htake : (toCharsBytes x ++ List.replicate (15 - (toCharsBytes x).length) 0).take 15 =
      toCharsBytes x ++ List.replicate (15 - (toCharsBytes x).length) 0 := by
    apply List.take_of_length_le
    simp [List.length_replicate]
    omega
  rw [htake, fromCharsInt_toCharsBytes x _ hlo hhi]
  simp only []
  rw [if_neg (by simp; omega)]

/-- Witness for C4: mode `DATA_ONLY_STREAMING`, index `-123`. -/
theorem convertFileId_roundtrip_witness :
    ((2 : Nat) = 2 ∨ (2 : Nat) = 3) ∧
      convertFileIdToFileIndex (convertFileIndexToFileId 2 (-123)) = -123 :=
  ⟨Or.inl rfl, convertFileId_roundtrip 2 (-123) (Or.inl rfl) (by norm_num) (by norm_num)⟩

/-- C10: for every `MetadataMode` byte and every `FileIdx` in the `int16_t`
range, the decimal text fits in the 15 bytes after the tag, so
`convertFileIndexToFileId` never takes its error branch and the returned
`FileId` has the mode as its first byte. -/
theorem convertFileIndexToFileId_total (mode : Nat) (x : Int)
    (hmode : mode = 0 ∨ mode = 1 ∨ mode = 2 ∨ mode = 3)
    (hlo : -32768 ≤ x) (hhi : x ≤ 32767) :
    (toCharsBytes x).length ≤ 15 ∧
      (convertFileIndexToFileId mode x).head? = some mode := by
  have hfit : (toCharsBytes x).length ≤ 15 :=
    le_trans (toCharsBytes_length_le x hlo hhi) (by norm_num)
  refine ⟨hfit, ?_⟩
  rw [convertFileIndexToFileId, if_pos hfit]
  rfl

/-- Witness for C10: mode `STDIN`, index `-32768` (the longest text). -/
theorem convertFileIndexToFileId_total_witness :
    (toCharsBytes (-32768)).length ≤ 15 ∧
      (convertFileIndexToFileId 0 (-32768)).head? = some 0 :=
  convertFileIndexToFileId_total 0 (-32768) (Or.inl rfl) (by norm_num) (by norm_num)

/-! ## Block assembler (`copyToIncFs` / `flashToIncFs`)

The assembler pulls bytes from a source fd into a 256 KiB buffer and
submits `IncFsDataBlock` instructions to the filesystem.  Only the byte
counts matter for the claims, so the buffer is tracked by its length and
the `read(2)` results come from an oracle list.
-/

/-- One `IncFsDataBlock` instruction as submitted to `writeBlocks` by the
assembler (the `fileFd`, `compression` and `data` pointer fields are fixed
or not modelled).  `eofFlush` is ghost instrumentation recording the `eof`
argument of the `flashToIncFs` call that emitted the block. -/
structure IncBlock where
  pageIndex : Nat
  dataSize : Nat
  kind : Nat
  eofFlush : Bool
deriving DecidableEq

/-- `flashToIncFs(incfsFd, kind, eof, &blockIdx, buffer, blocks)`: emit one
full-block instruction per `INCFS_DATA_FILE_BLOCK_SIZE` bytes of the buffer
with `pageIndex = (*blockIdx)++`; iff `eof` holds and a non-zero remainder
`remain` is left, emit one short trailing instruction of size `remain`.
The batch goes to `writeBlocks` and the consumed prefix is erased from the
buffer.  Returns (emitted instructions, new `*blockIdx`, new buffer
length); a negative `writeBlocks` result fails the call after submission
and does not change the submitted batch, so it is not modelled. -/
def flashToIncFs (kind : Nat) (eof : Bool) (blockIdx : Nat) (bufLen : Nat) :
    List IncBlock × Nat × Nat :=
  if bufLen - bufLen / INCFS_DATA_FILE_BLOCK_SIZE * INCFS_DATA_FILE_BLOCK_SIZE ≠ 0 ∧ eof then
    ((List.range (bufLen / INCFS_DATA_FILE_BLOCK_SIZE)).map (fun i =>
        { pageIndex := blockIdx + i, dataSize := INCFS_DATA_FILE_BLOCK_SIZE,
          kind := kind, eofFlush := eof }) ++
      [{ pageIndex := blockIdx + bufLen / INCFS_DATA_FILE_BLOCK_SIZE,
          dataSize := bufLen - bufLen / INCFS_DATA_FILE_BLOCK_SIZE * INCFS_DATA_FILE_BLOCK_SIZE,
          kind := kind, eofFlush := eof }],
      blockIdx + bufLen / INCFS_DATA_FILE_BLOCK_SIZE + 1,
      bufLen - (bufLen / INCFS_DATA_FILE_BLOCK_SIZE * INCFS_DATA_FILE_BLOCK_SIZE +
        (bufLen - bufLen / INCFS_DATA_FILE_BLOCK_SIZE * INCFS_DATA_FILE_BLOCK_SIZE)))
  else
    ((List.range (bufLen / INCFS_DATA_FILE_BLOCK_SIZE)).map (fun i =>
        { pageIndex := blockIdx + i, dataSize := INCFS_DATA_FILE_BLOCK_SIZE,
          kind := kind, eofFlush := eof }),
      blockIdx + bufLen / INCFS_DATA_FILE_BLOCK_SIZE,
      bufLen - bufLen / INCFS_DATA_FILE_BLOCK_SIZE * INCFS_DATA_FILE_BLOCK_SIZE)

theorem flashToIncFs_bufLen_lt (kind : Nat) (eof : Bool) (blockIdx bufLen : Nat) :
    (flashToIncFs kind eof blockIdx bufLen).2.2 < INCFS_DATA_FILE_BLOCK_SIZE := by
  rw [flashToIncFs]
  split_ifs <;> simp only [] <;> simp only [INCFS_DATA_FILE_BLOCK_SIZE] <;> omega

/-- The `while (remaining > 0)` loop of `copyToIncFs`.  The `read(2)` calls
on the source fd are an oracle list `reads`: the entry `r` means the
syscall returned `min r toRead` bytes (a read never returns more than
requested); an exhausted oracle reads 0 from then on — under `waitOnEof`
the real loop would sleep 10ms and retry, so finite oracles cover every
finite run of the real loop.  A negative `read` return fails the call
before any further flush and is not modelled.  Returns (submitted
instructions, final buffer length, final `blockIdx`). -/
def copyLoop (kind : Nat) (waitOnEof : Bool) (remaining bufLen blockIdx : Nat)
    (reads : List Nat) : List IncBlock × Nat × Nat :=
  if remaining = 0 then ([], bufLen, blockIdx)
  else if BUFFER_SIZE - bufLen < INCFS_DATA_FILE_BLOCK_SIZE then
    -- free capacity below one block: flush without eof and re-enter the loop
    ((flashToIncFs kind false blockIdx bufLen).1 ++
        (copyLoop kind waitOnEof remaining (flashToIncFs kind false blockIdx bufLen).2.2
          (flashToIncFs kind false blockIdx bufLen).2.1 reads).1,
      (copyLoop kind waitOnEof remaining (flashToIncFs kind false blockIdx bufLen).2.2
        (flashToIncFs kind false blockIdx bufLen).2.1 reads).2.1,
      (copyLoop kind waitOnEof remaining (flashToIncFs kind false blockIdx bufLen).2.2
        (flashToIncFs kind false blockIdx bufLen).2.1 reads).2.2)
  else
    match reads with
    | [] => ([], bufLen, blockIdx)
    | r :: rs =>
      if min r (min remaining (BUFFER_SIZE - bufLen)) = 0 then
        if waitOnEof then copyLoop kind waitOnEof remaining bufLen blockIdx rs
        else ([], bufLen, blockIdx)
      else
        copyLoop kind waitOnEof
          (remaining - min r (min remaining (BUFFER_SIZE - bufLen)))
          (bufLen + min r (min remaining (BUFFER_SIZE - bufLen))) blockIdx rs
termination_by
  reads.length * 2 + (if BUFFER_SIZE - bufLen < INCFS_DATA_FILE_BLOCK_SIZE then 1 else 0)
decreasing_by
  · have hb := flashToIncFs_bufLen_lt kind false blockIdx bufLen
    simp only [BUFFER_SIZE, INCFS_DATA_FILE_BLOCK_SIZE] at *
    split_ifs <;> omega
  · simp only [List.length_cons]
    split_ifs <;> omega
  · simp only [List.length_cons]
    split_ifs <;> omega

/-- `copyToIncFs(incfsFd, size, kind, incomingFd, waitOnEof, buffer, blocks)`:
run the read loop starting from an empty buffer (each call leaves and finds
the shared buffer drained) and block index 0; then, if the buffer is
non-empty, flush with `eof = true`.  Returns the full sequence of
instructions submitted to `writeBlocks` for this input. -/
def copyToIncFs (size kind : Nat) (waitOnEof : Bool) (reads : List Nat) : List IncBlock :=
  if (copyLoop kind waitOnEof size 0 0 reads).2.1 ≠ 0 then
    (copyLoop kind waitOnEof size 0 0 reads).1 ++
      (flashToIncFs kind true (copyLoop kind waitOnEof size 0 0 reads).2.2
        (copyLoop kind waitOnEof size 0 0 reads).2.1).1
  else (copyLoop kind waitOnEof size 0 0 reads).1

theorem flashToIncFs_false_eq (kind blockIdx bufLen : Nat) :
    flashToIncFs kind false blockIdx bufLen =
      ((List.range (bufLen / INCFS_DATA_FILE_BLOCK_SIZE)).map (fun i =>
        { pageIndex := blockIdx + i, dataSize := INCFS_DATA_FILE_BLOCK_SIZE,
          kind := kind, eofFlush := false }),
        blockIdx + bufLen / INCFS_DATA_FILE_BLOCK_SIZE,
        bufLen - bufLen / INCFS_DATA_FILE_BLOCK_SIZE * INCFS_DATA_FILE_BLOCK_SIZE) := by
  rw [flashToIncFs, if_neg (by simp)]

/-- Every instruction the read loop itself submits comes from an
`eof = false` flush: a run of full blocks with consecutive page indices
continuing at `blockIdx`. -/
theorem copyLoop_shape (kind : Nat) (waitOnEof : Bool) (remaining bufLen blockIdx : Nat)
    (reads : List Nat) :
    ∃ n : Nat,
      (copyLoop kind waitOnEof remaining bufLen blockIdx reads).1 =
        (List.range n).map (fun i =>
          { pageIndex := blockIdx + i, dataSize := INCFS_DATA_FILE_BLOCK_SIZE,
            kind := kind, eofFlush := false }) ∧
      (copyLoop kind waitOnEof remaining bufLen blockIdx reads).2.2 = blockIdx + n := by
  induction remaining, bufLen, blockIdx, reads using copyLoop.induct kind waitOnEof with
  | case1 bufLen blockIdx reads =>
    refine ⟨0, ?_, ?_⟩ <;> rw [copyLoop.eq_def] <;> simp
  | case2 remaining bufLen blockIdx reads h1 h2 ih =>
    obtain ⟨n, hout, hidx⟩ := ih
    rw [flashToIncFs_false_eq] at hout hidx
    simp only [] at hout hidx
    rw [copyLoop.eq_def, if_neg h1, if_pos h2, flashToIncFs_false_eq]
    simp only []
    rw [hout, hidx]
    refine ⟨bufLen / INCFS_DATA_FILE_BLOCK_SIZE + n, ?_, ?_⟩
    · rw [List.range_add, List.map_append, List.map_map]
      congr 1
      apply List.map_congr_left
      intro a _
      simp [Function.comp, Nat.add_assoc]
    · omega
  | case3 remaining bufLen blockIdx h1 h2 =>
    refine ⟨0, ?_, ?_⟩ <;> rw [copyLoop.eq_def, if_neg h1, if_neg h2] <;> simp
  | case4 remaining bufLen blockIdx h1 h2 c rest h3 h4 ih =>
    obtain ⟨n, hout, hidx⟩ := ih
    rw [copyLoop.eq_def, if_neg h1, if_neg h2]
    simp only [if_pos h3, if_pos h4]
    exact ⟨n, hout, hidx⟩
  | case5 remaining bufLen blockIdx h1 h2 c rest h3 h4 =>
    rw [copyLoop.eq_def, if_neg h1, if_neg h2]
    simp only [if_pos h3, if_neg h4]
    refine ⟨0, ?_, ?_⟩ <;> simp
  | case6 remaining bufLen blockIdx h1 h2 c rest h3 ih =>
    obtain ⟨n, hout, hidx⟩ := ih
    rw [copyLoop.eq_def, if_neg h1, if_neg h2]
    simp only [if_neg h3]
    exact ⟨n, hout, hidx⟩

/-- Structure of the full instruction sequence submitted by `copyToIncFs`:
a run of full blocks from non-eof flushes, then a run of full blocks from
the final `eof = true` flush, then at most one short trailing block from
that same eof flush; page indices are consecutive from 0 across the three
parts. -/
theorem copyToIncFs_shape (size kind : Nat) (waitOnEof : Bool) (reads : List Nat) :
    ∃ n fb tail,
      copyToIncFs size kind waitOnEof reads =
        ((List.range n).map (fun i =>
          { pageIndex := i, dataSize := INCFS_DATA_FILE_BLOCK_SIZE, kind := kind,
            eofFlush := false }) ++
         (List.range fb).map (fun i =>
          { pageIndex := n + i, dataSize := INCFS_DATA_FILE_BLOCK_SIZE, kind := kind,
            eofFlush := true }) ++ tail) ∧
      (tail = [] ∨ ∃ s, 0 < s ∧ s < INCFS_DATA_FILE_BLOCK_SIZE ∧
        tail = [{ pageIndex := n + fb, dataSize := s, kind := kind, eofFlush := true }]) := by
  obtain ⟨n, hout, hidx⟩ := copyLoop_shape kind waitOnEof size 0 0 reads
  simp only [Nat.zero_add] at hout hidx
  rw [copyToIncFs]
  by_cases hb : (copyLoop kind waitOnEof size 0 0 reads).2.1 ≠ 0
  · rw [if_pos hb, hout, hidx, flashToIncFs]
    by_cases hrem : (copyLoop kind waitOnEof size 0 0 reads).2.1 -
        (copyLoop kind waitOnEof size 0 0 reads).2.1 / INCFS_DATA_FILE_BLOCK_SIZE *
          INCFS_DATA_FILE_BLOCK_SIZE ≠ 0
    · rw [if_pos (by exact ⟨hrem, rfl⟩)]
      simp only []
      refine ⟨n, (copyLoop kind waitOnEof size 0 0 reads).2.1 / INCFS_DATA_FILE_BLOCK_SIZE,
        _, by rw [List.append_assoc], Or.inr ⟨_, ?_, ?_, rfl⟩⟩
      · simp only [INCFS_DATA_FILE_BLOCK_SIZE] at hrem ⊢
        omega
      · simp only [INCFS_DATA_FILE_BLOCK_SIZE]
        omega
    · rw [if_neg (fun hcon => hrem hcon.1)]
      simp only []
      refine ⟨n, (copyLoop kind waitOnEof size 0 0 reads).2.1 / INCFS_DATA_FILE_BLOCK_SIZE,
        [], by simp, Or.inl rfl⟩
  · rw [if_neg hb, hout]
    exact ⟨n, 0, [], by simp, Or.inl rfl⟩

/-- C2: for one run of the block assembler over one input (one `copyToIncFs`
call on one source fd and kind), the `pageIndex` values of the submitted
instructions are exactly `0, 1, 2, ...` in order, with no gaps and no reuse,
whatever the interleaving of reads and intermediate non-eof flushes. -/
theorem copyToIncFs_pageIndices (size kind : Nat) (waitOnEof : Bool) (reads : List Nat) :
    (copyToIncFs size kind waitOnEof reads).map (fun b => b.pageIndex) =
      List.range (copyToIncFs size kind waitOnEof reads).length := by
  obtain ⟨n, fb, tail, hout, htail⟩ := copyToIncFs_shape size kind waitOnEof reads
  rcases htail with htail | ⟨s, hs0, hsB, htail⟩ <;> subst htail <;> rw [hout]
  · simp only [List.append_nil, List.map_append, List.map_map, List.length_append,
      List.length_map, List.length_range, Function.comp_def]
    rw [List.range_add, List.map_id']
  · simp only [List.map_append, List.map_map, List.length_append, List.length_map,
      List.length_range, List.map_cons, List.map_nil, List.length_cons, List.length_nil,
      Function.comp_def]
    rw [show n + fb + (0 + 1) = (n + fb) + 1 by omega, List.range_succ, List.range_add]
    rw [List.append_assoc, List.map_id']
    exact (List.append_assoc _ _ _).symm

/-- C1: every `IncFsDataBlock` submitted by the block assembler for one
input has `dataSize` equal to the filesystem block size, except possibly the
last one, which has `0 < dataSize < block_size`; the ghost `eofFlush` flag
shows that such a short block only comes from the `eof = true` flush, which
emits the final instructions of the input. -/
theorem copyToIncFs_blockSize_invariant (size kind : Nat) (waitOnEof : Bool)
    (reads : List Nat) (i : Nat)
    (h : i < (copyToIncFs size kind waitOnEof reads).length) :
    ((copyToIncFs size kind waitOnEof reads).getD i ⟨0, 0, 0, false⟩).dataSize =
        INCFS_DATA_FILE_BLOCK_SIZE ∨
      (0 < ((copyToIncFs size kind waitOnEof reads).getD i ⟨0, 0, 0, false⟩).dataSize ∧
        ((copyToIncFs size kind waitOnEof reads).getD i ⟨0, 0, 0, false⟩).dataSize <
          INCFS_DATA_FILE_BLOCK_SIZE ∧
        i + 1 = (copyToIncFs size kind waitOnEof reads).length ∧
        ((copyToIncFs size kind waitOnEof reads).getD i ⟨0, 0, 0, false⟩).eofFlush = true) := by
  obtain ⟨n, fb, tail, hout, htail⟩ := copyToIncFs_shape size kind waitOnEof reads
  rcases htail with htail | ⟨s, hs0, hsB, htail⟩ <;> subst htail <;> rw [hout] at h ⊢ <;>
    rw [List.getD_eq_getElem?_getD]
  · -- no short block: every entry is full-size
    left
    simp only [List.append_nil, List.length_append, List.length_map, List.length_range] at h
    by_cases hi : i < n
    · rw [List.append_nil, List.getElem?_append_left (by simp [hi]),
        List.getElem?_map, List.getElem?_range hi]
      simp
    · rw [List.append_nil, List.getElem?_append_right (by simp; omega), List.getElem?_map,
        List.getElem?_range (by simp; omega)]
      simp
  · simp only [List.length_append, List.length_map, List.length_range, List.length_cons,
      List.length_nil] at h
    by_cases hfull : i < n + fb
    · left
      rw [List.getElem?_append_left (by simp; omega)]
      by_cases hi : i < n
      · rw [List.getElem?_append_left (by simp [hi]), List.getElem?_map,
          List.getElem?_range hi]
        simp
      · rw [List.getElem?_append_right (by simp; omega), List.getElem?_map,
          List.getElem?_range (by simp; omega)]
        simp
    · right
      rw [List.getElem?_append_right (by simp; omega)]
      simp only [List.length_append, List.length_map, List.length_range]
      rw [show i - (n + fb) = 0 by omega]
      simp only [List.getElem?_cons_zero, Option.getD_some]
      refine ⟨hs0, hsB, ?_, trivial⟩
      simp only [List.length_append, List.length_map, List.length_range, List.length_cons,
        List.length_nil]
      omega

/-- Concrete assembler run used by the C1 witness: a 10-byte input arriving
in one read yields exactly one short eof-flush block. -/
theorem copyToIncFs_example :
    copyToIncFs 10 0 false [10] =
      [{ pageIndex := 0, dataSize := 10, kind := 0, eofFlush := true }] := by
  have hloop : copyLoop 0 false 10 0 0 [10] = ([], 10, 0) := by
    rw [copyLoop.eq_def]
    norm_num [BUFFER_SIZE, INCFS_DATA_FILE_BLOCK_SIZE]
    rw [copyLoop.eq_def]
    norm_num
  rw [copyToIncFs, hloop]
  norm_num [flashToIncFs, INCFS_DATA_FILE_BLOCK_SIZE]

/-- Witness for C1 at a 10-byte input: the single submitted block is the
short trailing block of the eof flush. -/
theorem copyToIncFs_blockSize_invariant_witness :
    0 < (copyToIncFs 10 0 false [10]).length ∧
      (((copyToIncFs 10 0 false [10]).getD 0 ⟨0, 0, 0, false⟩).dataSize =
          INCFS_DATA_FILE_BLOCK_SIZE ∨
        (0 < ((copyToIncFs 10 0 false [10]).getD 0 ⟨0, 0, 0, false⟩).dataSize ∧
          ((copyToIncFs 10 0 false [10]).getD 0 ⟨0, 0, 0, false⟩).dataSize <
            INCFS_DATA_FILE_BLOCK_SIZE ∧
          0 + 1 = (copyToIncFs 10 0 false [10]).length ∧
          ((copyToIncFs 10 0 false [10]).getD 0 ⟨0, 0, 0, false⟩).eofFlush = true)) :=
  ⟨by rw [copyToIncFs_example]; norm_num,
   copyToIncFs_blockSize_invariant 10 0 false [10] 0 (by rw [copyToIncFs_example]; norm_num)⟩

/-! ## Outbound request codec (`sendRequest`) -/

/-- Two's-complement bit pattern of an `int16_t` value. -/
def toU16 (x : Int) : Nat := (x % 65536).toNat

/-- Two's-complement bit pattern of an `int32_t` value. -/
def toU32 (x : Int) : Nat := (x % 4294967296).toNat

/-- `be16toh` on a little-endian host: a 16-bit byte swap. -/
def bswap16 (v : Nat) : Nat := v % 256 * 256 + v / 256 % 256

/-- `be32toh` on a little-endian host: a 32-bit byte swap. -/
def bswap32 (v : Nat) : Nat :=
  v % 256 * 16777216 + v / 256 % 256 * 65536 + v / 65536 % 256 * 256 + v / 16777216 % 256

/-- Little-endian memory image of a 16-bit value (how the packed struct
field sits in memory on a little-endian host). -/
def le16 (v : Nat) : List Nat := [v % 256, v / 256 % 256]

/-- Little-endian memory image of a 32-bit value. -/
def le32 (v : Nat) : List Nat := [v % 256, v / 256 % 256, v / 65536 % 256, v / 16777216 % 256]

/-- Big-endian byte pair of a 16-bit value. -/
def be16 (v : Nat) : List Nat := [v / 256 % 256, v % 256]

/-- Big-endian byte quadruple of a 32-bit value. -/
def be32 (v : Nat) : List Nat := [v / 16777216 % 256, v / 65536 % 256, v / 256 % 256, v % 256]

/-- The `INCR` magic, `0x52434E49`. -/
def INCR : Nat := 0x52434E49

/-- `RequestType` constants. -/
def EXIT : Int := 0

def BLOCK_MISSING : Int := 1

def PREFETCH : Int := 2

/-- The 12 bytes of the packed `RequestCommand` built by `sendRequest` on a
little-endian host: `magic = INCR` and each integer field stored in host
(little-endian) order after the host-order argument went through
`be16toh`/`be32toh` (i.e. one byte swap). -/
def sendRequestBytes (requestType fileIdx blockIdx : Int) : List Nat :=
  le32 INCR ++ le16 (bswap16 (toU16 requestType)) ++ le16 (bswap16 (toU16 fileIdx)) ++
    le32 (bswap32 (toU32 blockIdx))

/-- `sendRequest(fd, requestType, fileIdx, blockIdx)`: builds the 12-byte
command and hands the whole buffer to one `WriteFully` call on the outbound
fd.  `WriteFully` (external, android::base) performs a single write of the
full buffer and returns false on a short write; the oracle `writeOk` is its
result, which `sendRequest` passes back to the caller. -/
def sendRequest (writeOk : Bool) (requestType fileIdx blockIdx : Int) : Bool × List Nat :=
  (writeOk, sendRequestBytes requestType fileIdx blockIdx)

theorem le16_bswap16 (v : Nat) : le16 (bswap16 v) = be16 v := by
  have key : ∀ a b : Nat, a < 256 → b < 256 →
      (a * 256 + b) % 256 = b ∧ (a * 256 + b) / 256 % 256 = a := by
    intro a b ha hb
    omega
  obtain ⟨k1, k2⟩ := key (v % 256) (v / 256 % 256) (by omega) (by omega)
  simp only [le16, bswap16, be16]
  rw [k1, k2]

theorem le32_bswap32 (v : Nat) : le32 (bswap32 v) = be32 v := by
  have key : ∀ a b c d : Nat, a < 256 → b < 256 → c < 256 → d < 256 →
      (a * 16777216 + b * 65536 + c * 256 + d) % 256 = d ∧
      (a * 16777216 + b * 65536 + c * 256 + d) / 256 % 256 = c ∧
      (a * 16777216 + b * 65536 + c * 256 + d) / 65536 % 256 = b ∧
      (a * 16777216 + b * 65536 + c * 256 + d) / 16777216 % 256 = a := by
    intro a b c d ha hb hc hd
    omega
  obtain ⟨k1, k2, k3, k4⟩ := key (v % 256) (v / 256 % 256) (v / 65536 % 256)
    (v / 16777216 % 256) (by omega) (by omega) (by omega) (by omega)
  simp only [le32, bswap32, be32]
  rw [k1, k2, k3, k4]

/-- C6: `sendRequest` writes exactly 12 bytes in a single `WriteFully` call
(whose failure it returns): the first four bytes are 'I','N','C','R'
(little-endian image of magic `0x52434E49`), and each integer field is the
host-order value passed through `be16toh`/`be32toh`, which on the
little-endian host lays the field out big-endian on the wire. -/
theorem sendRequest_wire_format (writeOk : Bool) (requestType fileIdx blockIdx : Int) :
    ((sendRequest writeOk requestType fileIdx blockIdx).2.length = 12 ∧
      (sendRequest writeOk requestType fileIdx blockIdx).2.take 4 = [73, 78, 67, 82] ∧
      (sendRequest writeOk requestType fileIdx blockIdx).2 =
        [73, 78, 67, 82] ++ be16 (toU16 requestType) ++ be16 (toU16 fileIdx) ++
          be32 (toU32 blockIdx)) ∧
    (sendRequest writeOk requestType fileIdx blockIdx).1 = writeOk := by
  have hbytes : sendRequestBytes requestType fileIdx blockIdx =
      [73, 78, 67, 82] ++ be16 (toU16 requestType) ++ be16 (toU16 fileIdx) ++
        be32 (toU32 blockIdx) := by
    rw [sendRequestBytes, le16_bswap16, le16_bswap16, le32_bswap32,
      show le32 INCR = [73, 78, 67, 82] by decide]
  refine ⟨⟨?_, ?_, hbytes⟩, rfl⟩
  · show (sendRequestBytes requestType fileIdx blockIdx).length = 12
    rw [hbytes]
    simp [be16, be32]
  · show (sendRequestBytes requestType fileIdx blockIdx).take 4 = [73, 78, 67, 82]
    rw [hbytes]
    rfl

/-! ## Inbound header decoding (`readHeader`) and the streaming receiver -/

/-- The packed on-wire `BlockHeader`; fields carry the C widths `int16_t`,
`int8_t`, `int8_t`, `int32_t`, `int16_t` and default to `-1`. -/
structure BlockHeader where
  fileIdx : Int := -1
  blockType : Int := -1
  compressionType : Int := -1
  blockIdx : Int := -1
  blockSize : Int := -1
deriving DecidableEq

/-- `readHeader(data)`: with fewer than 10 bytes available return the
default header (every field `-1`) and leave the span untouched; otherwise
decode the packed fields (16/32-bit quantities read big-endian: a raw
little-endian load followed by `be16toh`/`be32toh`) and advance the span by
the 10 header bytes. -/
def readHeader (data : List Nat) : BlockHeader × List Nat :=
  if data.length < 10 then ({}, data)
  else
    ({ fileIdx := toInt16 (data.getD 0 0 * 256 + data.getD 1 0),
       blockType := toInt8 (data.getD 2 0),
       compressionType := toInt8 (data.getD 3 0),
       blockIdx := toInt32 (data.getD 4 0 * 16777216 + data.getD 5 0 * 65536 +
         data.getD 6 0 * 256 + data.getD 7 0),
       blockSize := toInt16 (data.getD 8 0 * 256 + data.getD 9 0) },
     data.drop 10)

/-- The receiver's sentinel test: a comparison of the decoded fields
(`fileIdx == -1 && blockType == 0 && compressionType == 0 && blockIdx == 0
&& blockSize == 0`), not of a raw byte pattern. -/
def isSentinelHeader (h : BlockHeader) : Prop :=
  h.fileIdx = -1 ∧ h.blockType = 0 ∧ h.compressionType = 0 ∧ h.blockIdx = 0 ∧ h.blockSize = 0

instance (h : BlockHeader) : Decidable (isSentinelHeader h) := by
  unfold isSentinelHeader
  infer_instance

/-- The receiver's invalid-header test (`fileIdx < 0 || blockSize <= 0 ||
blockType < 0 || compressionType < 0 || blockIdx < 0`). -/
def isInvalidHeader (h : BlockHeader) : Prop :=
  h.fileIdx < 0 ∨ h.blockSize ≤ 0 ∨ h.blockType < 0 ∨ h.compressionType < 0 ∨ h.blockIdx < 0

instance (h : BlockHeader) : Decidable (isInvalidHeader h) := by
  unfold isInvalidHeader
  infer_instance

/-- Modelled from the spec: `android::incfs::isValidFileId` of the external
IncFS collaborator — a `FileId` is valid unless it is the reserved invalid
id (all 16 bytes `0xFF`). -/
def isValidFileId (fileId : List Nat) : Prop := fileId ≠ List.replicate 16 255

instance (fileId : List Nat) : Decidable (isValidFileId fileId) := by
  unfold isValidFileId
  infer_instance

/-- One `IncFsDataBlock` pushed by the receiver walk; the per-file write fd
(cached in `writeFds` by `fileIdx`) is identified here by the `fileIdx`
itself, with `openForSpecialOps` modelled as always succeeding (its failure
path only breaks the walk without sending or reporting anything). -/
structure RecvInst where
  fileIdx : Int
  pageIndex : Int
  compression : Int
  kind : Int
  dataSize : Int
deriving DecidableEq

theorem readHeader_short (data : List Nat) (h : data.length < 10) :
    readHeader data = ({}, data) := by
  rw [readHeader, if_pos h]

theorem readHeader_fileIdx_nonneg (data : List Nat)
    (h : 0 ≤ ((readHeader data).1).fileIdx) : 10 ≤ data.length := by
  by_contra hc
  push_neg at hc
  rw [readHeader_short data hc] at h
  simp only [] at h
  omega

theorem readHeader_rest (data : List Nat) (h : 10 ≤ data.length) :
    (readHeader data).2 = data.drop 10 := by
  rw [readHeader, if_neg (by omega)]

/-- The inner `while (!remainingData.empty())` walk of `receiver` over one
chunk.  Returns (instruction vector after the walk, wire bytes of the
outbound requests sent during the walk, whether `mStopReceiving` was set).
The unknown-file `continue` deliberately does not skip the payload, exactly
as in the source. -/
def receiverWalk (mode : Nat) (data : List Nat) (instructions : List RecvInst) :
    List RecvInst × List (List Nat) × Bool :=
  if hdata : data = [] then (instructions, [], false)
  else
    if isSentinelHeader (readHeader data).1 then
      (instructions, [sendRequestBytes EXIT (-1) (-1)], true)
    else if isInvalidHeader (readHeader data).1 then
      (instructions, [], true)
    else if ¬ isValidFileId (convertFileIndexToFileId mode (readHeader data).1.fileIdx) then
      receiverWalk mode (readHeader data).2 instructions
    else
      receiverWalk mode ((readHeader data).2.drop (readHeader data).1.blockSize.toNat)
        (instructions ++ [{ fileIdx := (readHeader data).1.fileIdx
                            pageIndex := (readHeader data).1.blockIdx
                            compression := (readHeader data).1.compressionType
                            kind := (readHeader data).1.blockType
                            dataSize := (readHeader data).1.blockSize }])
termination_by data.length
decreasing_by
  · have hvalid : 0 ≤ ((readHeader data).1).fileIdx := by
      rename_i hsent hinv hfile
      unfold isInvalidHeader at hinv
      omega
    have hlen := readHeader_fileIdx_nonneg data hvalid
    rw [readHeader_rest data hlen]
    simp only [List.length_drop]
    omega
  · have hvalid : 0 ≤ ((readHeader data).1).fileIdx := by
      rename_i hsent hinv hfile
      unfold isInvalidHeader at hinv
      omega
    have hlen := readHeader_fileIdx_nonneg data hvalid
    rw [readHeader_rest data hlen]
    simp only [List.length_drop]
    omega

/-- The events one iteration of the receiver loop can observe:
`waitForDataOrSignal` returning 0 (timeout), a negative poll result, the
cancellation eventfd firing, `readChunk` failing, or a successfully read
chunk with the given payload bytes. -/
inductive RecvEvent where
  | timeout
  | pollError
  | signal
  | badChunk
  | chunk (data : List Nat)

/-- `DATA_LOADER_UNRECOVERABLE` status code of the dataloader framework
(external collaborator). -/
def DATA_LOADER_UNRECOVERABLE : Nat := 8

/-- Observable state of one `receiver` run: every outbound `sendRequest`
(as wire bytes, in order), every status report, every `writeInstructions`
batch, the `mStopReceiving` flag, and whether the loop is still alive. -/
structure RecvState where
  reqs : List (List Nat)
  reports : List Nat
  batches : List (List RecvInst)
  stop : Bool
  running : Bool
deriving DecidableEq

def initialRecvState : RecvState :=
  { reqs := [], reports := [], batches := [], stop := false, running := true }

/-- One iteration of the `while (!mStopReceiving)` loop of `receiver`.
On a break — poll error, stop signal, failed `readChunk`, or a chunk walk
that set `mStopReceiving` — the loop exits and the final drain
`writeInstructions(instructions)` runs on the vector already cleared by the
per-chunk drain, i.e. an empty batch, before `mOutFd` is closed. -/
def receiverStep (mode : Nat) (s : RecvState) (e : RecvEvent) : RecvState :=
  if s.running then
    match e with
    | .timeout => s
    | .pollError =>
      { s with reports := s.reports ++ [DATA_LOADER_UNRECOVERABLE]
               batches := s.batches ++ [[]]
               running := false }
    | .signal =>
      { s with reqs := s.reqs ++ [sendRequestBytes EXIT (-1) (-1)]
               batches := s.batches ++ [[]]
               running := false }
    | .badChunk =>
      { s with reports := s.reports ++ [DATA_LOADER_UNRECOVERABLE]
               batches := s.batches ++ [[]]
               running := false }
    | .chunk data =>
      if (receiverWalk mode data []).2.2 then
        { s with reqs := s.reqs ++ (receiverWalk mode data []).2.1
                 batches := s.batches ++ [(receiverWalk mode data []).1] ++ [[]]
                 stop := true
                 running := false }
      else
        { s with reqs := s.reqs ++ (receiverWalk mode data []).2.1
                 batches := s.batches ++ [(receiverWalk mode data []).1] }
  else s

/-- A `receiver(inout, mode)` run over a finite event oracle, from the
initial state (no requests sent, `mStopReceiving` false). -/
def receiverRun (mode : Nat) (events : List RecvEvent) : RecvState :=
  events.foldl (receiverStep mode) initialRecvState

theorem receiverWalk_reqs (mode : Nat) (data : List Nat) (instructions : List RecvInst) :
    (receiverWalk mode data instructions).2.1 = [] ∨
      ((receiverWalk mode data instructions).2.1 = [sendRequestBytes EXIT (-1) (-1)] ∧
        (receiverWalk mode data instructions).2.2 = true) := by
  induction data, instructions using receiverWalk.induct mode with
  | case1 instructions => rw [receiverWalk.eq_def]; simp
  | case2 data instructions hdata hsent =>
    rw [receiverWalk.eq_def, dif_neg hdata, if_pos hsent]
    exact Or.inr ⟨rfl, rfl⟩
  | case3 data instructions hdata hsent hinv =>
    rw [receiverWalk.eq_def, dif_neg hdata, if_neg hsent, if_pos hinv]
    exact Or.inl rfl
  | case4 data instructions hdata hsent hinv hfile ih =>
    rw [receiverWalk.eq_def, dif_neg hdata, if_neg hsent, if_neg hinv, if_pos hfile]
    exact ih
  | case5 data instructions hdata hsent hinv hfile ih =>
    rw [receiverWalk.eq_def, dif_neg hdata, if_neg hsent, if_neg hinv, if_neg hfile]
    exact ih

theorem receiverStep_preserves (mode : Nat) (s : RecvState) (e : RecvEvent)
    (h : (receiverStep mode s e).running = true) :
    (receiverStep mode s e).reqs = s.reqs ∧ (receiverStep mode s e).stop = s.stop ∧
      s.running = true := by
  by_cases hr : s.running
  · cases e with
    | timeout => exact ⟨by simp [receiverStep, hr], by simp [receiverStep, hr], hr⟩
    | pollError => simp [receiverStep, hr] at h
    | signal => simp [receiverStep, hr] at h
    | badChunk => simp [receiverStep, hr] at h
    | chunk data =>
      by_cases hw : (receiverWalk mode data []).2.2
      · simp [receiverStep, hr, hw] at h
      · rcases receiverWalk_reqs mode data [] with hreq | ⟨hreq, hstop⟩
        · refine ⟨by simp [receiverStep, hr, hw, hreq], by simp [receiverStep, hr, hw], hr⟩
        · rw [hstop] at hw
          simp at hw
  · rw [receiverStep.eq_def, if_neg hr] at h
    exact absurd h hr

theorem receiverFold_running (mode : Nat) (events : List RecvEvent) : ∀ (s : RecvState),
    (List.foldl (receiverStep mode) s events).running = true →
      (List.foldl (receiverStep mode) s events).reqs = s.reqs ∧
        (List.foldl (receiverStep mode) s events).stop = s.stop ∧ s.running = true := by
  induction events with
  | nil => intro s h; exact ⟨rfl, rfl, h⟩
  | cons e rest ih =>
    intro s h
    rw [List.foldl_cons] at h ⊢
    obtain ⟨h1, h2, h3⟩ := ih (receiverStep mode s e) h
    obtain ⟨h4, h5, h6⟩ := receiverStep_preserves mode s e h3
    exact ⟨h1.trans h4, h2.trans h5, h6⟩

theorem receiverFold_stopped (mode : Nat) (events : List RecvEvent) : ∀ (s : RecvState),
    s.running = false → List.foldl (receiverStep mode) s events = s := by
  induction events with
  | nil => intro s _; rfl
  | cons e rest ih =>
    intro s h
    rw [List.foldl_cons]
    have hstep : receiverStep mode s e = s := by simp [receiverStep, h]
    rw [hstep]
    exact ih s h

/-- C5: when the receiver is still running and the next chunk's first header
decodes to the sentinel (`fileIdx == -1` and every other field `0`), it
sends exactly one EXIT request, sets `mStopReceiving`, and terminates
without sending any further outbound request — whatever events follow.  The
last two conjuncts exhibit the field-wise detection: the bytes
`FF FF 00 .. 00` are the sentinel even though they are not all zero, while
ten all-zero bytes are not the sentinel. -/
theorem receiver_sentinel (mode : Nat) (pre post : List RecvEvent) (data : List Nat)
    (hrun : (receiverRun mode pre).running = true)
    (hsent : isSentinelHeader (readHeader data).1) :
    (receiverRun mode (pre ++ RecvEvent.chunk data :: post)).reqs =
        [sendRequestBytes EXIT (-1) (-1)] ∧
      (receiverRun mode (pre ++ RecvEvent.chunk data :: post)).stop = true ∧
      (receiverRun mode (pre ++ RecvEvent.chunk data :: post)).running = false ∧
      isSentinelHeader (readHeader [255, 255, 0, 0, 0, 0, 0, 0, 0, 0]).1 ∧
      ¬ isSentinelHeader (readHeader (List.replicate 10 0)).1 := by
  have hne : data ≠ [] := by
    intro hnil
    subst hnil
    rw [readHeader_short [] (by simp)] at hsent
    obtain ⟨-, h2, -⟩ := hsent
    simp only [] at h2
    omega
  have hwalk : receiverWalk mode data [] = ([], [sendRequestBytes EXIT (-1) (-1)], true) := by
    rw [receiverWalk.eq_def, dif_neg hne, if_pos hsent]
  obtain ⟨hreqs, hstop, -⟩ := receiverFold_running mode pre initialRecvState hrun
  have hstep : receiverStep mode (receiverRun mode pre) (RecvEvent.chunk data) =
      RecvState.mk ((receiverRun mode pre).reqs ++ [sendRequestBytes EXIT (-1) (-1)])
        (receiverRun mode pre).reports ((receiverRun mode pre).batches ++ [[]] ++ [[]])
        true false := by
    rw [receiverStep.eq_def, if_pos hrun]
    simp [hwalk]
  have hrest : receiverRun mode (pre ++ RecvEvent.chunk data :: post) =
      RecvState.mk ((receiverRun mode pre).reqs ++ [sendRequestBytes EXIT (-1) (-1)])
        (receiverRun mode pre).reports ((receiverRun mode pre).batches ++ [[]] ++ [[]])
        true false := by
    rw [receiverRun, List.foldl_append, List.foldl_cons]
    rw [show List.foldl (receiverStep mode) initialRecvState pre = receiverRun mode pre from rfl]
    rw [hstep]
    exact receiverFold_stopped mode post _ rfl
  rw [hrest]
  refine ⟨?_, rfl, rfl, by decide, by decide⟩
  show (receiverRun mode pre).reqs ++ [sendRequestBytes EXIT (-1) (-1)] =
    [sendRequestBytes EXIT (-1) (-1)]
  rw [show (receiverRun mode pre).reqs = [] from hreqs]
  rfl

/-- Witness for C5: a fresh receiver delivered the single sentinel chunk
`FF FF 00 00 00 00 00 00 00 00`. -/
theorem receiver_sentinel_witness :
    (receiverRun 3 []).running = true ∧
      isSentinelHeader (readHeader [255, 255, 0, 0, 0, 0, 0, 0, 0, 0]).1 ∧
      ((receiverRun 3 ([] ++ RecvEvent.chunk [255, 255, 0, 0, 0, 0, 0, 0, 0, 0] :: [])).reqs =
          [sendRequestBytes EXIT (-1) (-1)] ∧
        (receiverRun 3 ([] ++ RecvEvent.chunk [255, 255, 0, 0, 0, 0, 0, 0, 0, 0] :: [])).stop =
          true ∧
        (receiverRun 3
            ([] ++ RecvEvent.chunk [255, 255, 0, 0, 0, 0, 0, 0, 0, 0] :: [])).running = false ∧
        isSentinelHeader (readHeader [255, 255, 0, 0, 0, 0, 0, 0, 0, 0]).1 ∧
        ¬ isSentinelHeader (readHeader (List.replicate 10 0)).1) :=
  ⟨rfl, by decide,
    receiver_sentinel 3 [] [] [255, 255, 0, 0, 0, 0, 0, 0, 0, 0] rfl (by decide)⟩

/-- C7 counterexample: the receiver is given one chunk whose first header
decodes to `fileIdx = 1, blockType = 0, compressionType = 0, blockIdx = 0,
blockSize = -32768` — a non-sentinel header with a negative field.  The
receiver sets `mStopReceiving` and exits, but its report list stays empty:
no `UNRECOVERABLE` is reported, contrary to the claim. -/
theorem receiver_invalidHeader_counterexample :
    (receiverRun 3 [RecvEvent.chunk [0, 1, 0, 0, 0, 0, 0, 0, 128, 0]]).stop = true ∧
      (receiverRun 3 [RecvEvent.chunk [0, 1, 0, 0, 0, 0, 0, 0, 128, 0]]).reports = [] := by
  have hwalk : receiverWalk 3 [0, 1, 0, 0, 0, 0, 0, 0, 128, 0] [] = ([], [], true) := by
    rw [receiverWalk.eq_def]
    decide
  constructor <;> simp [receiverRun, receiverStep.eq_def, initialRecvState, hwalk]

/-- C7 (amended): streaming decode failures split in two.  (a) A chunk whose
walk decodes a non-sentinel invalid header (any negative field — including
the all `-1` default header left by a short trailing fragment — or a
non-positive blockSize) makes the receiver set `mStopReceiving`, drain the
pending instructions, and exit the loop, but it reports nothing to the
status listener.  (b) A failed `readChunk` (short chunk) reports
`UNRECOVERABLE`, drains, and exits the loop without setting
`mStopReceiving`. -/
theorem receiver_decode_failure (mode : Nat) (s : RecvState) (data : List Nat)
    (hrun : s.running = true)
    (hstop : (receiverWalk mode data []).2.2 = true)
    (hreq : (receiverWalk mode data []).2.1 = []) :
    receiverStep mode s (RecvEvent.chunk data) =
      RecvState.mk s.reqs s.reports (s.batches ++ [(receiverWalk mode data []).1] ++ [[]])
        true false ∧
    receiverStep mode s RecvEvent.badChunk =
      RecvState.mk s.reqs (s.reports ++ [DATA_LOADER_UNRECOVERABLE]) (s.batches ++ [[]])
        s.stop false := by
  constructor
  · rw [receiverStep.eq_def, if_pos hrun]
    simp [hstop, hreq]
  · rw [receiverStep.eq_def, if_pos hrun]

/-- Witness for the amended C7: a fresh receiver, a 10-zero-byte chunk
(whose header decodes to blockSize = 0, an invalid non-sentinel header). -/
theorem receiver_decode_failure_witness :
    initialRecvState.running = true ∧
      (receiverWalk 3 [0, 0, 0, 0, 0, 0, 0, 0, 0, 0] []).2.2 = true ∧
      (receiverWalk 3 [0, 0, 0, 0, 0, 0, 0, 0, 0, 0] []).2.1 = [] ∧
      (receiverStep 3 initialRecvState (RecvEvent.chunk [0, 0, 0, 0, 0, 0, 0, 0, 0, 0]) =
          RecvState.mk initialRecvState.reqs initialRecvState.reports
            (initialRecvState.batches ++
              [(receiverWalk 3 [0, 0, 0, 0, 0, 0, 0, 0, 0, 0] []).1] ++ [[]])
            true false ∧
        receiverStep 3 initialRecvState RecvEvent.badChunk =
          RecvState.mk initialRecvState.reqs
            (initialRecvState.reports ++ [DATA_LOADER_UNRECOVERABLE])
            (initialRecvState.batches ++ [[]]) initialRecvState.stop false) := by
  have h1 : (receiverWalk 3 [0, 0, 0, 0, 0, 0, 0, 0, 0, 0] []).2.2 = true := by
    rw [receiverWalk.eq_def]
    decide
  have h2 : (receiverWalk 3 [0, 0, 0, 0, 0, 0, 0, 0, 0, 0] []).2.1 = [] := by
    rw [receiverWalk.eq_def]
    decide
  exact ⟨rfl, h1, h2,
    receiver_decode_failure 3 initialRecvState [0, 0, 0, 0, 0, 0, 0, 0, 0, 0] rfl h1 h2⟩

/-- C9: `readHeader` is total on inputs shorter than one header: it returns
the default header (every field `-1`) and leaves the input unconsumed; a
non-empty trailing fragment shorter than 10 bytes is therefore classified
by the receiver walk as an invalid non-sentinel header (`fileIdx = -1 < 0`
but `blockType = -1`, so not the sentinel), which sets `mStopReceiving` and
stops the walk instead of looping or reading out of bounds. -/
theorem readHeader_short_total (mode : Nat) (data : List Nat) (instructions : List RecvInst)
    (hlen : data.length < 10) :
    readHeader data = (BlockHeader.mk (-1) (-1) (-1) (-1) (-1), data) ∧
      (data ≠ [] → receiverWalk mode data instructions = (instructions, [], true)) := by
  have hshort : readHeader data = ({}, data) := readHeader_short data hlen
  constructor
  · exact hshort
  · intro hne
    rw [receiverWalk.eq_def, dif_neg hne]
    simp only [hshort]
    rw [if_neg (by decide), if_pos (by decide)]

/-- Witness for C9: the 3-byte fragment `[1, 2, 3]`. -/
theorem readHeader_short_total_witness :
    ([1, 2, 3] : List Nat).length < 10 ∧
      (readHeader [1, 2, 3] = (BlockHeader.mk (-1) (-1) (-1) (-1) (-1), [1, 2, 3]) ∧
        (([1, 2, 3] : List Nat) ≠ [] →
          receiverWalk 3 [1, 2, 3] [] = ([], [], true))) :=
  ⟨by decide, readHeader_short_total 3 [1, 2, 3] [] (by decide)⟩

/-! ## Input source multiplexer (`openInputs` / `openLocalFile`) and the
prepare-image driver (`onPrepareImage`) -/

/-- `MetadataMode` values. -/
def STDIN : Nat := 0

def LOCAL_FILE : Nat := 1

def DATA_ONLY_STREAMING : Nat := 2

def STREAMING : Nat := 3

/-- `IncFsBlockKind` values of the external filesystem collaborator. -/
def INCFS_BLOCK_KIND_DATA : Nat := 0

def INCFS_BLOCK_KIND_HASH : Nat := 1

/-- One `InputDesc` produced by the source multiplexer.  The exclusively
owned fd is represented by the position of the input: the driver feeds the
j-th input of a file from the j-th read oracle of that file's environment. -/
structure InputDesc where
  size : Int
  kind : Nat := INCFS_BLOCK_KIND_DATA
  waitOnEof : Bool := false
  streaming : Bool := false
  mode : Nat := STDIN
deriving DecidableEq

/-- Per-file oracle standing for the host-process resolver, the `.idsig`
sidecar and IncFS: `idsigTreeSize` is `some t` when `getLocalFile(path +
".idsig")` resolves and `skipIdSigHeaders` reads declared tree size `t`;
`fileOk` / `stdinOk` tell whether `getLocalFile(path)` / `getStdIn`
resolve; `incfsOk` is the `openForSpecialOps` outcome; `reads` are the
per-input read oracles handed to `copyToIncFs`. -/
structure FileEnv where
  idsigTreeSize : Option Int
  fileOk : Bool
  stdinOk : Bool
  incfsOk : Bool
  reads : List (List Nat)

/-- `openLocalFile(env, jni, shellCommand, size, filePath)`: if the
`.idsig` sidecar resolves, compare its declared tree size with
`verityTreeSizeForFile(size)` — mismatch returns the empty vector — and
push a HASH input sized to the tree; then, if the data file resolves, push
a DATA input for the body. -/
def openLocalFile (size : Int) (env : FileEnv) : List InputDesc :=
  match env.idsigTreeSize with
  | some actualTreeSize =>
    if verityTreeSizeForFile size ≠ actualTreeSize then []
    else
      { size := verityTreeSizeForFile size
        kind := INCFS_BLOCK_KIND_HASH } ::
        (if env.fileOk then [{ size := size }] else [])
  | none => if env.fileOk then [{ size := size }] else []

/-- `read<int8_t>(metadata).value_or(STDIN)`: the mode tag in the first
metadata byte, defaulting to `STDIN` when the metadata is empty. -/
def metadataMode (metadata : List Nat) : Int :=
  match metadata with
  | [] => (STDIN : Int)
  | b :: _ => toInt8 b

/-- `openInputs(env, jni, shellCommand, size, metadata)`: `LOCAL_FILE`
dispatches to `openLocalFile`; the other modes need the piped stdin fd
(unresolvable ⇒ empty result) and push one input each; a mode byte outside
the enumeration leaves the result empty. -/
def openInputs (size : Int) (metadata : List Nat) (env : FileEnv) : List InputDesc :=
  if metadataMode metadata = (LOCAL_FILE : Int) then openLocalFile size env
  else if env.stdinOk = false then []
  else if metadataMode metadata = (STDIN : Int) then
    [{ size := size, waitOnEof := true }]
  else if metadataMode metadata = (DATA_ONLY_STREAMING : Int) then
    [{ size := verityTreeSizeForFile size
       kind := INCFS_BLOCK_KIND_HASH
       waitOnEof := true
       streaming := true
       mode := DATA_ONLY_STREAMING }]
  else if metadataMode metadata = (STREAMING : Int) then
    [{ size := 0
       streaming := true
       mode := STREAMING }]
  else []

/-- Run the assembler over each opened input of one file (all on the same
IncFS fd): the j-th input reads from the j-th oracle; the result is the
concatenation of all instruction batches submitted for this file. -/
def runInputs : List InputDesc → List (List Nat) → List IncBlock
  | [], _ => []
  | input :: rest, reads =>
    copyToIncFs input.size.toNat input.kind input.waitOnEof (reads.headD []) ++
      runInputs rest reads.tail

/-- The per-file loop of `onPrepareImage` over the install set, carrying the
position of the current file.  Per file: `openInputs` empty ⇒ abort the
whole prepare; otherwise `openForSpecialOps` is called (the file's index is
recorded as opened, even if the open fails) and a failed open aborts;
otherwise each input runs through `copyToIncFs` on that fd.  Returns
(success, indices whose IncFS fd open was attempted, assembler submissions
tagged by file index). -/
def prepareFiles : Nat → List (Int × List Nat × FileEnv) →
    Bool × List Nat × List (Nat × List IncBlock)
  | _, [] => (true, [], [])
  | i, (size, metadata, env) :: rest =>
    if openInputs size metadata env = [] then (false, [], [])
    else if env.incfsOk = false then (false, [i], [])
    else
      ((prepareFiles (i + 1) rest).1,
        i :: (prepareFiles (i + 1) rest).2.1,
        (i, runInputs (openInputs size metadata env) env.reads) ::
          (prepareFiles (i + 1) rest).2.2)

/-- `onPrepareImage(addedFiles)`: the shell-command lookup is assumed
resolved (its failure aborts before any file is touched); then the per-file
loop runs.  The streaming handoff after a successful loop duplicates a
streaming input's fd and does not touch any per-file IncFS fd, so it is
outside this model. -/
def onPrepareImage (files : List (Int × List Nat × FileEnv)) :
    Bool × List Nat × List (Nat × List IncBlock) :=
  prepareFiles 0 files

theorem prepareFiles_fail (files : List (Int × List Nat × FileEnv)) :
    ∀ (start i : Nat) (size : Int) (metadata : List Nat) (env : FileEnv),
      files[i]? = some (size, metadata, env) →
      openInputs size metadata env = [] →
      (prepareFiles start files).1 = false ∧
        ¬ (start + i) ∈ (prepareFiles start files).2.1 ∧
        ∀ w ∈ (prepareFiles start files).2.2, ¬ w.1 = start + i := by
  induction files with
  | nil =>
    intro start i size metadata env hfile _
    simp at hfile
  | cons f rest ih =>
    intro start i size metadata env hfile hopen
    obtain ⟨sz, md, ev⟩ := f
    cases i with
    | zero =>
      simp only [List.getElem?_cons_zero, Option.some.injEq, Prod.mk.injEq] at hfile
      obtain ⟨h1, h2, h3⟩ := hfile
      subst h1
      subst h2
      subst h3
      rw [prepareFiles, if_pos hopen]
      exact ⟨rfl, by simp, by simp⟩
    | succ j =>
      simp only [List.getElem?_cons_succ] at hfile
      obtain ⟨hok, hmem, hw⟩ := ih (start + 1) j size metadata env hfile hopen
      rw [prepareFiles]
      by_cases h1 : openInputs sz md ev = []
      · rw [if_pos h1]
        exact ⟨rfl, by simp, by simp⟩
      · rw [if_neg h1]
        by_cases h2 : ev.incfsOk = false
        · rw [if_pos h2]
          refine ⟨rfl, ?_, ?_⟩
          · simp
          · simp
        · rw [if_neg h2]
          refine ⟨hok, ?_, ?_⟩
          · simp only [List.mem_cons]
            rintro (hc | hc)
            · omega
            · rw [show start + (j + 1) = start + 1 + j by omega] at hc
              exact hmem hc
          · intro w hw2
            simp only [List.mem_cons] at hw2
            rcases hw2 with hc | hc
            · subst hc
              simp
            · rw [show start + (j + 1) = start + 1 + j by omega]
              exact hw w hc

/-- C8: if a file of the install set is a `LOCAL_FILE` whose `.idsig`
sidecar resolves but declares a tree size different from
`verityTreeSizeForFile` of the declared file size, then `openInputs` for
that file is empty, `onPrepareImage` fails, and that file's IncFS fd is
never opened — in particular no `writeBlocks` submission is tagged with
that file. -/
theorem onPrepareImage_idsig_mismatch (files : List (Int × List Nat × FileEnv)) (i : Nat)
    (size t : Int) (metadata : List Nat) (env : FileEnv)
    (hfile : files[i]? = some (size, metadata, env))
    (hmode : metadataMode metadata = (LOCAL_FILE : Int))
    (hsig : env.idsigTreeSize = some t)
    (hmismatch : verityTreeSizeForFile size ≠ t) :
    openInputs size metadata env = [] ∧
      (onPrepareImage files).1 = false ∧
      ¬ i ∈ (onPrepareImage files).2.1 ∧
      ∀ w ∈ (onPrepareImage files).2.2, ¬ w.1 = i := by
  have hopen : openInputs size metadata env = [] := by
    rw [openInputs, if_pos hmode, openLocalFile.eq_def, hsig]
    simp only []
    rw [if_pos hmismatch]
  obtain ⟨h1, h2, h3⟩ := prepareFiles_fail files 0 i size metadata env hfile hopen
  rw [show (0 : Nat) + i = i from by omega] at h2 h3
  exact ⟨hopen, h1, h2, h3⟩

/-- Witness for C8: a one-file install set, `LOCAL_FILE` of size 8192 whose
idsig declares tree size 99 while `verityTreeSizeForFile 8192 = 4096`. -/
theorem onPrepareImage_idsig_mismatch_witness :
    ([((8192 : Int), [1, 97], FileEnv.mk (some 99) true true true [])][0]? =
        some (8192, [1, 97], FileEnv.mk (some 99) true true true []) ∧
      metadataMode [1, 97] = (LOCAL_FILE : Int) ∧
      verityTreeSizeForFile 8192 ≠ 99) ∧
      (openInputs 8192 [1, 97] (FileEnv.mk (some 99) true true true []) = [] ∧
        (onPrepareImage [(8192, [1, 97], FileEnv.mk (some 99) true true true [])]).1 = false ∧
        ¬ 0 ∈ (onPrepareImage [(8192, [1, 97], FileEnv.mk (some 99) true true true [])]).2.1 ∧
        ∀ w ∈ (onPrepareImage [(8192, [1, 97], FileEnv.mk (some 99) true true true [])]).2.2,
          ¬ w.1 = 0) := by
  have htree : verityTreeSizeForFile 8192 = 4096 := by
    rw [verityTreeSizeForFile]
    rw [show ((8192 : Int) - 1).tdiv (INCFS_DATA_FILE_BLOCK_SIZE : Int) = 1 by
      simp only [INCFS_DATA_FILE_BLOCK_SIZE]; decide]
    rw [verityHashLoop]
    rw [if_pos (by norm_num)]
    rw [show ((1 : Int) + 1 + (hash_per_block : Int) - 1).tdiv (hash_per_block : Int) = 1 by
      simp only [hash_per_block, SHA256_DIGEST_SIZE, INCFS_DATA_FILE_BLOCK_SIZE]; decide]
    rw [verityHashLoop]
    norm_num [INCFS_DATA_FILE_BLOCK_SIZE]
  refine ⟨⟨rfl, by decide, by rw [htree]; decide⟩, ?_⟩
  exact onPrepareImage_idsig_mismatch _ 0 8192 99 [1, 97] _ rfl (by decide) rfl
    (by rw [htree]; decide)

end PMSC
